import Mathlib

/-!
Verification of the py_parallelizer worker-pool coordinator.

This file gives a shallow embedding of the repository's core logic:

* the results-queue protocol shared by the threaded executors
  (`src/py_parallelizer/executors/threaded.py` and
  `src/py_parallelizer/executors/threader.py`),
* the polling collector of the multiprocess executor
  (`src/py_parallelizer/executors/multiprocess.py`),
* the task-record builder `_format_args` and the worker-count defaults
  (`src/py_parallelizer/base.py` and `src/py_parallelizer/executors/base.py`),
* the batching helpers (`src/py_parallelizer/utils.py`).

Workers and the coordinator communicate only through the task queue and the
results queue, so a run of the concurrent system is modelled by the finite
sequence of messages the collection loop consumes (in the order it consumes
them) together with the contents of the task queue.  Theorems quantify over
all such sequences, hence over all interleavings of worker completions.
-/

namespace PyParallelizer

/-- A message on the results queue of the threaded executors: either the
`"DONE"` sentinel a worker pushes when it exits its loop, or an
`(index, value)` pair pushed after executing one task. -/
inductive Msg (B : Type) where
  | done : Msg B
  | value (idx : Nat) (val : B) : Msg B
  deriving DecidableEq, Repr

/-- `base.py BaseParallelExecutor._apply_results_func` (lines 109-113):
apply `results_func` if provided, otherwise return the value as-is. -/
def applyResultsFunc {B : Type} (resultsFunc : Option (B → B)) (value : B) : B :=
  match resultsFunc with
  | some g => g value
  | none => value

/-- Shared body of the result-queue consumption loops: a `"DONE"` message
leaves the result buffer unchanged (it only advances the finished-worker
counter); an `(idx, value)` message stores `store value` at slot `idx`.
`store` is instantiated per source loop below. -/
def queueFold {V B : Type} (store : V → Option B) (msgs : List (Msg V))
    (results : List (Option B)) : List (Option B) :=
  msgs.foldl
    (fun r m =>
      match m with
      | .done => r
      | .value idx v => r.set idx (store v))
    results

/-- `threaded.py ThreadedExecutor._collect_results` (lines 139-164), buffer
effect of the loop body: `results[idx] = self._apply_results_func(value)`,
`"DONE"` messages only increment `finished_workers`. -/
def collectResults {B : Type} (resultsFunc : Option (B → B)) (msgs : List (Msg B))
    (results : List (Option B)) : List (Option B) :=
  queueFold (fun v => some (applyResultsFunc resultsFunc v)) msgs results

/-- `threaded.py ThreadedExecutor._drain_results_to` (lines 166-178): on
interrupt, every message still sitting on the results queue is drained into
the buffer with the same store as the collection loop, skipping `"DONE"`. -/
def drainResultsTo {B : Type} (resultsFunc : Option (B → B)) (msgs : List (Msg B))
    (results : List (Option B)) : List (Option B) :=
  queueFold (fun v => some (applyResultsFunc resultsFunc v)) msgs results

/-- `threader.py ThreadedExecutor._collect_results` / `_collect_ready_results`:
the loop body is `self.results[idx] = value` with no transform; the worker of
that variant pushes `(idx, result)` on success and `(idx, None)` on failure,
so the payload type is `Option B` and is stored verbatim. -/
def collectResultsThreader {B : Type} (msgs : List (Msg (Option B)))
    (results : List (Option B)) : List (Option B) :=
  queueFold id msgs results

/-- `threaded.py ThreadedExecutor.execute` (lines 102-110) and likewise
`threader.py` (lines 113-123): the task queue after dispatch holds every
task as `(idx, kwds)` in index order, followed by one `None` stop marker
per worker. -/
def dispatchQueue {A : Type} (tasks : List A) (nWorkers : Nat) :
    List (Option (Nat × A)) :=
  (tasks.enum.map some) ++ List.replicate nWorkers none

/-- `threaded.py` / `threader.py` `_drain_task_queue`: empty the task queue
with non-blocking gets, then push one `None` stop marker per worker. -/
def drainTaskQueue {A : Type} (q : List (Option (Nat × A))) (nWorkers : Nat) :
    List (Option (Nat × A)) :=
  List.replicate nWorkers none

/-- Number of stop markers (`None` entries) currently on a task queue. -/
def stopMarkerCount {A : Type} (q : List (Option (Nat × A))) : Nat :=
  q.countP (fun it => it.isNone)

/-- Number of `"DONE"` sentinels in a stream of result-queue messages. -/
def doneCount {B : Type} (msgs : List (Msg B)) : Nat :=
  msgs.countP (fun m => match m with | .done => true | .value _ _ => false)

/-- The collection loop `while finished_workers < n_workers: ...` of both
threaded variants can reach its exit condition on a stream of available
messages only if the stream supplies at least `nWorkers` `"DONE"`
sentinels. -/
def collectionCanFinish {B : Type} (msgs : List (Msg B)) (nWorkers : Nat) : Prop :=
  nWorkers ≤ doneCount msgs

instance {B : Type} (msgs : List (Msg B)) (nWorkers : Nat) :
    Decidable (collectionCanFinish msgs nWorkers) :=
  inferInstanceAs (Decidable (nWorkers ≤ doneCount msgs))

/-- Does the stream contain a completion message for task index `i`? -/
def hasValueFor {B : Type} (i : Nat) (msgs : List (Msg B)) : Bool :=
  msgs.any (fun m => match m with | .value j _ => j == i | .done => false)

/-- A single result-queue message is sound for `f` and `tasks` when a value
message carries exactly the output of the task at its index — this is what
the worker loops guarantee, since a worker pushes `(idx, self.func(**kwds))`
for the very `(idx, kwds)` pair it popped from the dispatch queue. -/
def msgSound {A B : Type} (f : A → B) (tasks : List A) : Msg B → Prop
  | .done => True
  | .value idx v => tasks[idx]?.map f = some v

instance {A B : Type} [DecidableEq B] (f : A → B) (tasks : List A) :
    DecidablePred (msgSound f tasks) := fun m =>
  match m with
  | .done => .isTrue trivial
  | .value idx v => inferInstanceAs (Decidable (tasks[idx]?.map f = some v))

/-- A whole stream of result-queue messages is sound for `f` and `tasks`. -/
def MsgsSound {A B : Type} (f : A → B) (tasks : List A) (msgs : List (Msg B)) : Prop :=
  ∀ m ∈ msgs, msgSound f tasks m

instance {A B : Type} [DecidableEq B] (f : A → B) (tasks : List A)
    (msgs : List (Msg B)) : Decidable (MsgsSound f tasks msgs) :=
  inferInstanceAs (Decidable (∀ m ∈ msgs, msgSound f tasks m))

/-- `threaded.py ThreadWorker.run` (lines 32-55): pop items until a `None`
stop marker or a set stop event, then push `"DONE"` and break.  On a task
item, run the function; on success push `(idx, result)`; on an exception the
`except` clause logs and re-`raise`s, so the worker thread dies without
pushing anything further — in particular without pushing its `"DONE"`. -/
def threadWorkerRun {A E B : Type} (f : A → Except E B) (stopEvent : Bool) :
    List (Option (Nat × A)) → List (Msg B)
  | [] => []
  | none :: _ => [.done]
  | some (idx, a) :: rest =>
    if stopEvent then [.done]
    else
      match f a with
      | .ok r => .value idx r :: threadWorkerRun f stopEvent rest
      | .error _ => []

/-- `threader.py ThreadedExecutor._worker` (lines 36-53): same loop, but the
`except` clause pushes `(idx, None)` and the loop continues, so a failing
task is recorded as an absent slot and siblings keep running. -/
def workerLoop {A E B : Type} (f : A → Except E B) (stopEvent : Bool) :
    List (Option (Nat × A)) → List (Msg (Option B))
  | [] => []
  | none :: _ => [.done]
  | some (idx, a) :: rest =>
    if stopEvent then [.done]
    else
      (match f a with
       | .ok r => Msg.value idx (some r)
       | .error _ => Msg.value idx none) :: workerLoop f stopEvent rest

/-- Observable outcome of one `threaded.py ThreadedExecutor.execute` call:
the result buffer and interrupt flag it returns, plus the shutdown state the
exit path leaves behind (stop event, task-queue contents, `thread.join()`
completed for every worker handle). -/
structure ThreadedOutcome (A B : Type) where
  results : List (Option B)
  interrupt : Bool
  stopEvent : Bool
  taskQueue : List (Option (Nat × A))
  threadsJoined : Bool
  deriving Repr

/-- `threaded.py ThreadedExecutor.execute` (lines 83-137), normal path: the
collection loop consumes `msgs`, no interrupt fires, every queue item has
been consumed by the workers, and all threads are joined (lines 122-124). -/
def executeNormal {A B : Type} (resultsFunc : Option (B → B)) (tasks : List A)
    (nWorkers : Nat) (msgs : List (Msg B)) : ThreadedOutcome A B :=
  { results := collectResults resultsFunc msgs
      (List.replicate tasks.length (none : Option B))
    interrupt := false
    stopEvent := false
    taskQueue := []
    threadsJoined := true }

/-- `threaded.py ThreadedExecutor.execute`, interrupted path: the collection
loop consumes `processed`, then `KeyboardInterrupt` fires; `_collect_results`
drains the `pending` messages still on the results queue into the buffer
(line 161), `execute` then sets the stop event, drains the task queue and
refills it with stop markers (lines 116-119), and joins every thread
(lines 122-124) before returning `(results, True)`. -/
def executeInterrupted {A B : Type} (resultsFunc : Option (B → B)) (tasks : List A)
    (nWorkers : Nat) (remainingQueue : List (Option (Nat × A)))
    (processed pending : List (Msg B)) : ThreadedOutcome A B :=
  { results := drainResultsTo resultsFunc pending
      (collectResults resultsFunc processed
        (List.replicate tasks.length (none : Option B)))
    interrupt := true
    stopEvent := true
    taskQueue := drainTaskQueue remainingQueue nWorkers
    threadsJoined := true }

/-- `multiprocess.py MultiprocessExecutor._collect_results` (lines 96-120),
effect of retrieving one ready handle: the handle at position `i` was created
by `apply_async(self.func, kwds=self.keywordargs[i])`, so its value is
`f tasks[i]`; the loop stores `self._apply_results_func(res)` at slot `i`
and clears the handle. -/
def mpCollectStep {A B : Type} (resultsFunc : Option (B → B)) (f : A → B)
    (tasks : List A) (results : List (Option B)) (i : Nat) : List (Option B) :=
  match tasks[i]? with
  | some a => results.set i (some (applyResultsFunc resultsFunc (f a)))
  | none => results

/-- `multiprocess.py MultiprocessExecutor._collect_results`: handles become
ready in an arbitrary order; `order` records the positions in the order the
polling loop retrieves them.  The loop ends once every handle is cleared,
i.e. once `order` has covered every position. -/
def mpCollectResults {A B : Type} (resultsFunc : Option (B → B)) (f : A → B)
    (tasks : List A) (order : List Nat) (results : List (Option B)) :
    List (Option B) :=
  order.foldl (mpCollectStep resultsFunc f tasks) results

/-- Observable outcome of one `multiprocess.py MultiprocessExecutor.execute`
call: results and interrupt flag, plus the teardown state (pool closed on
the normal path, pool terminated and handle list cleared on interrupt). -/
structure MpOutcome (B : Type) where
  results : List (Option B)
  interrupt : Bool
  poolClosed : Bool
  poolTerminated : Bool
  handlesCleared : Bool
  deriving Repr

/-- `multiprocess.py MultiprocessExecutor.execute` (lines 43-84), normal
path: `_collect_results` retrieves every handle (in readiness order
`order`), then the pool is closed and joined. -/
def mpExecuteNormal {A B : Type} (resultsFunc : Option (B → B)) (f : A → B)
    (tasks : List A) (order : List Nat) : MpOutcome B :=
  { results := mpCollectResults resultsFunc f tasks order
      (List.replicate tasks.length (none : Option B))
    interrupt := false
    poolClosed := true
    poolTerminated := false
    handlesCleared := true }

/-- `multiprocess.py MultiprocessExecutor.execute`, interrupted path:
`_collect_results` has retrieved the handles in `collected` when
`KeyboardInterrupt` fires; `_collect_ready_results` (lines 86-94) then
drains the handles in `ready` that are already finished, and
`_cleanup_on_interrupt` (lines 122-136) clears the handle list and
terminates and joins the pool. -/
def mpExecuteInterrupted {A B : Type} (resultsFunc : Option (B → B)) (f : A → B)
    (tasks : List A) (collected ready : List Nat) : MpOutcome B :=
  { results := mpCollectResults resultsFunc f tasks (collected ++ ready)
      (List.replicate tasks.length (none : Option B))
    interrupt := true
    poolClosed := false
    poolTerminated := true
    handlesCleared := true }

section QueueFoldLemmas

variable {V B : Type}

theorem length_queueFold (store : V → Option B) (msgs : List (Msg V))
    (buf : List (Option B)) : (queueFold store msgs buf).length = buf.length := by
  induction msgs generalizing buf with
  | nil => rfl
  | cons m rest ih =>
    cases m with
    | done => exact ih buf
    | value idx v => simpa [queueFold, List.foldl_cons] using (ih (buf.set idx (store v))).trans (List.length_set buf ..)

theorem queueFold_getElem?_of_not_written (store : V → Option B)
    (msgs : List (Msg V)) (buf : List (Option B)) (i : Nat)
    (h : ∀ v, Msg.value i v ∉ msgs) :
    (queueFold store msgs buf)[i]? = buf[i]? := by
  induction msgs generalizing buf with
  | nil => rfl
  | cons m rest ih =>
    cases m with
    | done =>
      have := ih buf (fun v hv => h v (List.mem_cons_of_mem _ hv))
      simpa [queueFold, List.foldl_cons] using this
    | value j v =>
      have hj : j ≠ i := by
        intro hji
        exact h v (by simp [hji])
      have hrest : ∀ w, Msg.value i w ∉ rest := fun w hw => h w (List.mem_cons_of_mem _ hw)
      have := ih (buf.set j (store v)) hrest
      calc (queueFold store (Msg.value j v :: rest) buf)[i]?
          = (queueFold store rest (buf.set j (store v)))[i]? := rfl
        _ = (buf.set j (store v))[i]? := this
        _ = buf[i]? := List.getElem?_set_ne hj

theorem queueFold_getElem?_filled (store : V → Option B)
    (msgs : List (Msg V)) (buf : List (Option B)) (i : Nat) (p : Option B)
    (hmem : ∃ v, Msg.value i v ∈ msgs)
    (hpay : ∀ v, Msg.value i v ∈ msgs → store v = p)
    (hi : i < buf.length) :
    (queueFold store msgs buf)[i]? = some p := by
  induction msgs generalizing buf with
  | nil => exact absurd hmem (by simp)
  | cons m rest ih =>
    by_cases hrest : ∃ v, Msg.value i v ∈ rest
    · cases m with
      | done =>
        have := ih buf hrest (fun v hv => hpay v (List.mem_cons_of_mem _ hv)) hi
        simpa [queueFold, List.foldl_cons] using this
      | value j v =>
        have hi' : i < (buf.set j (store v)).length := by
          simpa [List.length_set] using hi
        exact ih (buf.set j (store v)) hrest (fun w hw => hpay w (List.mem_cons_of_mem _ hw)) hi'
    · -- the head message must be the (unique remaining) write to slot i
      obtain ⟨v, hv⟩ := hmem
      have hhead : m = Msg.value i v := by
        rcases List.mem_cons.mp hv with h | h
        · exact h.symm
        · exact absurd ⟨v, h⟩ hrest
      subst hhead
      have hstore : store v = p := hpay v (List.mem_cons_self _ _)
      have hnone : ∀ w, Msg.value i w ∉ rest := by
        intro w hw
        exact hrest ⟨w, hw⟩
      calc (queueFold store (Msg.value i v :: rest) buf)[i]?
          = (queueFold store rest (buf.set i (store v)))[i]? := rfl
        _ = (buf.set i (store v))[i]? :=
            queueFold_getElem?_of_not_written store rest _ i hnone
        _ = some (store v) := List.getElem?_set_eq_of_lt (store v) hi
        _ = some p := by rw [hstore]

theorem queueFold_getElem?_sound (store : V → Option B)
    (msgs : List (Msg V)) (buf : List (Option B)) (i : Nat) (w : B)
    (h : (queueFold store msgs buf)[i]? = some (some w)) :
    (∃ v, Msg.value i v ∈ msgs ∧ store v = some w) ∨ buf[i]? = some (some w) := by
  induction msgs generalizing buf with
  | nil => exact Or.inr h
  | cons m rest ih =>
    cases m with
    | done =>
      rcases ih buf (by simpa [queueFold, List.foldl_cons] using h) with ⟨v, hv, hs⟩ | hb
      · exact Or.inl ⟨v, List.mem_cons_of_mem _ hv, hs⟩
      · exact Or.inr hb
    | value j v =>
      have h' : (queueFold store rest (buf.set j (store v)))[i]? = some (some w) := h
      rcases ih (buf.set j (store v)) h' with ⟨u, hu, hs⟩ | hb
      · exact Or.inl ⟨u, List.mem_cons_of_mem _ hu, hs⟩
      · by_cases hji : j = i
        · subst hji
          by_cases hlt : j < buf.length
          · have : (buf.set j (store v))[j]? = some (store v) :=
              List.getElem?_set_eq_of_lt (store v) hlt
            rw [this] at hb
            exact Or.inl ⟨v, List.mem_cons_self _ _, by injection hb⟩
          · have : (buf.set j (store v))[j]? = none := by
              have hlen : (buf.set j (store v)).length ≤ j := by
                simpa [List.length_set] using Nat.le_of_not_lt hlt
              exact List.getElem?_eq_none hlen
            rw [this] at hb
            exact absurd hb (by simp)
        · have : (buf.set j (store v))[i]? = buf[i]? := List.getElem?_set_ne hji
          rw [this] at hb
          exact Or.inr hb

theorem hasValueFor_iff {B : Type} (i : Nat) (msgs : List (Msg B)) :
    hasValueFor i msgs = true ↔ ∃ v, Msg.value i v ∈ msgs := by
  constructor
  · intro h
    obtain ⟨m, hm, hp⟩ := List.any_eq_true.mp h
    cases m with
    | done => exact absurd hp (by simp)
    | value j v =>
      have : j = i := by simpa using hp
      exact ⟨v, this ▸ hm⟩
  · rintro ⟨v, hv⟩
    exact List.any_eq_true.mpr ⟨Msg.value i v, hv, by simp⟩

end QueueFoldLemmas

section CollectLemmas

variable {A B : Type}

/-- The value the coordinator is expected to store for task `i`: the task's
output under `f`, passed through `_apply_results_func`. -/
def expectedSlot (resultsFunc : Option (B → B)) (f : A → B) (tasks : List A)
    (i : Nat) : Option B :=
  tasks[i]?.map (fun a => applyResultsFunc resultsFunc (f a))

theorem length_collectResults (g : Option (B → B)) (msgs : List (Msg B))
    (buf : List (Option B)) : (collectResults g msgs buf).length = buf.length :=
  length_queueFold _ msgs buf

theorem collectResults_sound (g : Option (B → B)) (f : A → B) (tasks : List A)
    (msgs : List (Msg B)) (hs : MsgsSound f tasks msgs) (i : Nat) (w : B)
    (h : (collectResults g msgs (List.replicate tasks.length none))[i]? = some (some w)) :
    expectedSlot g f tasks i = some w := by
  rcases queueFold_getElem?_sound _ msgs _ i w h with ⟨v, hv, hstore⟩ | hb
  · have hsound := hs _ hv
    simp only [msgSound] at hsound
    have hw : applyResultsFunc g v = w := by injection hstore
    obtain ⟨a, ha, hva⟩ := Option.map_eq_some'.mp hsound
    simp only [expectedSlot, ha, Option.map_some']
    rw [hva, hw]
  · rcases Nat.lt_or_ge i tasks.length with hi | hi
    · rw [List.getElem?_replicate, if_pos hi] at hb
      exact absurd hb (by simp)
    · rw [List.getElem?_eq_none (by simpa using hi)] at hb
      exact absurd hb (by simp)

theorem collectResults_filled (g : Option (B → B)) (f : A → B) (tasks : List A)
    (msgs : List (Msg B)) (hs : MsgsSound f tasks msgs) (i : Nat)
    (hv : hasValueFor i msgs = true) (buf : List (Option B))
    (hlen : buf.length = tasks.length) :
    (collectResults g msgs buf)[i]? = some (expectedSlot g f tasks i) := by
  obtain ⟨v, hvm⟩ := (hasValueFor_iff i msgs).mp hv
  have hsound := hs _ hvm
  simp only [msgSound] at hsound
  obtain ⟨a, ha, hva⟩ := Option.map_eq_some'.mp hsound
  have hi : i < tasks.length := by
    by_contra hge
    rw [List.getElem?_eq_none (by omega)] at ha
    exact absurd ha (by simp)
  refine queueFold_getElem?_filled _ msgs buf i _ ⟨v, hvm⟩ ?_ (by omega)
  intro v' hv'
  have hsound' := hs _ hv'
  simp only [msgSound] at hsound'
  rw [ha] at hsound'
  have : v' = f a := by simpa using hsound'.symm
  simp [this, expectedSlot, ha]

theorem collectResults_untouched (g : Option (B → B)) (msgs : List (Msg B))
    (buf : List (Option B)) (i : Nat) (hv : hasValueFor i msgs = false) :
    (collectResults g msgs buf)[i]? = buf[i]? := by
  refine queueFold_getElem?_of_not_written _ msgs buf i ?_
  intro v hvm
  rw [(hasValueFor_iff i msgs).mpr ⟨v, hvm⟩] at hv
  cases hv

/-- A sound and complete message stream determines the whole buffer: the
returned list is exactly the per-task expected values, in task order. -/
theorem collectResults_canonical (g : Option (B → B)) (f : A → B)
    (tasks : List A) (msgs : List (Msg B)) (hs : MsgsSound f tasks msgs)
    (hc : ∀ i < tasks.length, hasValueFor i msgs = true) :
    collectResults g msgs (List.replicate tasks.length none) =
      tasks.map (fun a => some (applyResultsFunc g (f a))) := by
  apply List.ext_getElem?
  intro j
  rcases Nat.lt_or_ge j tasks.length with hj | hj
  · rw [collectResults_filled g f tasks msgs hs j (hc j hj)
      (List.replicate tasks.length none) (by simp)]
    rw [List.getElem?_map]
    simp only [expectedSlot]
    cases htj : tasks[j]? with
    | none =>
      have := List.getElem?_eq_none_iff.mp htj
      omega
    | some a => simp
  · rw [List.getElem?_eq_none (by simpa [length_collectResults] using hj),
      List.getElem?_eq_none (by simpa using hj)]

theorem length_mpCollectResults (g : Option (B → B)) (f : A → B)
    (tasks : List A) (order : List Nat) (buf : List (Option B)) :
    (mpCollectResults g f tasks order buf).length = buf.length := by
  induction order generalizing buf with
  | nil => rfl
  | cons i rest ih =>
    show (mpCollectResults g f tasks rest (mpCollectStep g f tasks buf i)).length = _
    rw [ih]
    unfold mpCollectStep
    cases tasks[i]? with
    | none => rfl
    | some a => simp [List.length_set]

theorem mpCollectResults_untouched (g : Option (B → B)) (f : A → B)
    (tasks : List A) (order : List Nat) (buf : List (Option B)) (i : Nat)
    (h : i ∉ order) :
    (mpCollectResults g f tasks order buf)[i]? = buf[i]? := by
  induction order generalizing buf with
  | nil => rfl
  | cons j rest ih =>
    have hji : j ≠ i := fun hji => h (hji ▸ List.mem_cons_self _ _)
    have hrest : i ∉ rest := fun hm => h (List.mem_cons_of_mem _ hm)
    show (mpCollectResults g f tasks rest (mpCollectStep g f tasks buf j))[i]? = _
    rw [ih _ hrest]
    unfold mpCollectStep
    cases tasks[j]? with
    | none => rfl
    | some a => exact List.getElem?_set_ne hji

theorem mpCollectResults_filled (g : Option (B → B)) (f : A → B)
    (tasks : List A) (order : List Nat) (buf : List (Option B)) (i : Nat)
    (hmem : i ∈ order) (hi : i < tasks.length) (hlen : buf.length = tasks.length) :
    (mpCollectResults g f tasks order buf)[i]? = some (expectedSlot g f tasks i) := by
  induction order generalizing buf with
  | nil => cases hmem
  | cons j rest ih =>
    show (mpCollectResults g f tasks rest (mpCollectStep g f tasks buf j))[i]? = _
    by_cases hrest : i ∈ rest
    · refine ih _ hrest ?_
      unfold mpCollectStep
      cases tasks[j]? with
      | none => exact hlen
      | some a => simpa [List.length_set] using hlen
    · have hji : j = i := by
        rcases List.mem_cons.mp hmem with h | h
        · exact h.symm
        · exact absurd h hrest
      subst hji
      rw [mpCollectResults_untouched g f tasks rest _ j hrest]
      unfold mpCollectStep
      cases htj : tasks[j]? with
      | none =>
        have := List.getElem?_eq_none_iff.mp htj
        omega
      | some a =>
        rw [List.getElem?_set_eq_of_lt _ (by omega)]
        simp [expectedSlot, htj]

theorem mpCollectResults_sound (g : Option (B → B)) (f : A → B)
    (tasks : List A) (order : List Nat) (i : Nat) (w : B)
    (h : (mpCollectResults g f tasks order (List.replicate tasks.length none))[i]? =
        some (some w)) :
    expectedSlot g f tasks i = some w := by
  by_cases hmem : i ∈ order
  · by_cases hi : i < tasks.length
    · rw [mpCollectResults_filled g f tasks order _ i hmem hi (by simp)] at h
      injection h
    · -- slot i is out of range: the buffer has no such position
      have hlen : (mpCollectResults g f tasks order
          (List.replicate tasks.length none)).length ≤ i := by
        rw [length_mpCollectResults]
        simpa using Nat.le_of_not_lt hi
      rw [List.getElem?_eq_none hlen] at h
      cases h
  · rw [mpCollectResults_untouched g f tasks order _ i hmem] at h
    rcases Nat.lt_or_ge i tasks.length with hi | hi
    · rw [List.getElem?_replicate, if_pos hi] at h
      exact absurd h (by simp)
    · rw [List.getElem?_eq_none (by simpa using hi)] at h
      cases h

/-- A retrieval order covering every handle determines the whole buffer. -/
theorem mpCollectResults_canonical (g : Option (B → B)) (f : A → B)
    (tasks : List A) (order : List Nat)
    (hc : ∀ i < tasks.length, i ∈ order) :
    mpCollectResults g f tasks order (List.replicate tasks.length none) =
      tasks.map (fun a => some (applyResultsFunc g (f a))) := by
  apply List.ext_getElem?
  intro j
  rcases Nat.lt_or_ge j tasks.length with hj | hj
  · rw [mpCollectResults_filled g f tasks order _ j (hc j hj) hj (by simp)]
    rw [List.getElem?_map]
    simp only [expectedSlot]
    cases htj : tasks[j]? with
    | none =>
      have := List.getElem?_eq_none_iff.mp htj
      omega
    | some a => simp
  · rw [List.getElem?_eq_none (by simpa [length_mpCollectResults] using hj),
      List.getElem?_eq_none (by simpa using hj)]

end CollectLemmas

section WorkerLemmas

variable {A E B : Type}

/-- What a catching worker records for one task: `some result` on success,
`none` (Python `None`) when the task function raised. -/
def outcomeOf (f : A → Except E B) (a : A) : Option B :=
  match f a with
  | .ok r => some r
  | .error _ => none

theorem workerLoop_spec (f : A → Except E B) (pairs : List (Nat × A)) :
    workerLoop f false (pairs.map some ++ [none]) =
      pairs.map (fun p => Msg.value p.1 (outcomeOf f p.2)) ++ [Msg.done] := by
  induction pairs with
  | nil => rfl
  | cons p rest ih =>
    obtain ⟨i, a⟩ := p
    show workerLoop f false (some (i, a) :: (rest.map some ++ [none])) = _
    cases hfa : f a <;> simp [workerLoop, outcomeOf, hfa, ih]

theorem doneCount_workerLoop (f : A → Except E B) (pairs : List (Nat × A)) :
    doneCount (workerLoop f false (pairs.map some ++ [none])) = 1 := by
  rw [workerLoop_spec]
  induction pairs with
  | nil => rfl
  | cons p rest ih => simpa [doneCount, List.countP_cons] using ih

theorem dispatchQueue_one_worker (tasks : List A) :
    dispatchQueue tasks 1 = tasks.enum.map some ++ [none] := by
  simp [dispatchQueue, List.replicate]

theorem mem_workerLoop_value (f : A → Except E B) (tasks : List A)
    (i : Nat) (v : Option B)
    (h : Msg.value i v ∈ workerLoop f false (dispatchQueue tasks 1)) :
    ∃ a, tasks[i]? = some a ∧ v = outcomeOf f a := by
  rw [dispatchQueue_one_worker, workerLoop_spec] at h
  rcases List.mem_append.mp h with h | h
  · obtain ⟨⟨j, a⟩, hja, heq⟩ := List.mem_map.mp h
    have hj : j = i := by injection heq
    have hv : v = outcomeOf f a := by injection heq with h1 h2; exact h2.symm
    subst hj
    exact ⟨a, List.mem_enum_iff_getElem?.mp hja, hv⟩
  · simp at h

theorem workerLoop_hasValueFor (f : A → Except E B) (tasks : List A)
    (i : Nat) (hi : i < tasks.length) :
    hasValueFor i (workerLoop f false (dispatchQueue tasks 1)) = true := by
  rw [hasValueFor_iff]
  refine ⟨outcomeOf f (tasks.get ⟨i, hi⟩), ?_⟩
  rw [dispatchQueue_one_worker, workerLoop_spec]
  refine List.mem_append.mpr (Or.inl ?_)
  refine List.mem_map.mpr ⟨(i, tasks.get ⟨i, hi⟩), ?_, rfl⟩
  exact List.mem_enum_iff_getElem?.mpr (by simp [List.getElem?_eq_getElem hi])

end WorkerLemmas

section TaskRecordBuilder

variable {α : Type}

/-- Equal-length check performed by `zip(*kwargs.values(), strict=True)`
inside `base.py BaseParallelExecutor._format_args` (lines 69-95): the zip
raises (a `ValueError`, the spec's `LengthMismatch`) exactly when the value
sequences do not all have the same length. -/
def sameLengths (kwargs : List (String × List α)) : Bool :=
  match kwargs with
  | [] => true
  | (_, v) :: rest => rest.all (fun p => p.2.length == v.length)

/-- `base.py BaseParallelExecutor._format_args` (lines 69-95): given keyword
arguments (an ordered mapping from name to a sequence of values), return one
argument record per index, where record `i` pairs every name with the `i`-th
element of its sequence; an empty mapping yields zero records; unequal
lengths raise `LengthMismatch` (zip-strict). -/
def formatArgs (kwargs : List (String × List α)) :
    Except String (List (List (String × Option α))) :=
  match kwargs with
  | [] => .ok []
  | (_, v) :: _ =>
    if sameLengths kwargs then
      .ok ((List.range v.length).map (fun i => kwargs.map (fun p => (p.1, p.2[i]?))))
    else
      .error "LengthMismatch"

/-- The `__init__`-then-`execute` pipeline of the threaded executor:
`keywordargs = self._format_args(**kwargs)` runs in the constructor, so a
`LengthMismatch` propagates before any worker is started or any task is
pushed to the task queue; otherwise `execute` builds the dispatch queue
from the records. -/
def threadedDispatchFromKwargs (kwargs : List (String × List α)) (nWorkers : Nat) :
    Except String (List (Option (Nat × List (String × Option α)))) :=
  (formatArgs kwargs).map (fun tasks => dispatchQueue tasks nWorkers)

theorem sameLengths_true_iff (kwargs : List (String × List α))
    (h : sameLengths kwargs = true) :
    ∀ p ∈ kwargs, ∀ q ∈ kwargs, p.2.length = q.2.length := by
  match kwargs with
  | [] => intro p hp; cases hp
  | (k, v) :: rest =>
    simp only [sameLengths, List.all_eq_true] at h
    have hall : ∀ p ∈ (k, v) :: rest, p.2.length = v.length := by
      intro p hp
      rcases List.mem_cons.mp hp with hp | hp
      · rw [hp]
      · exact Nat.beq_eq ▸ (by simpa using h p hp)
    intro p hp q hq
    rw [hall p hp, hall q hq]

theorem sameLengths_false_of_mismatch (kwargs : List (String × List α))
    (h : ∃ p ∈ kwargs, ∃ q ∈ kwargs, p.2.length ≠ q.2.length) :
    sameLengths kwargs = false := by
  obtain ⟨p, hp, q, hq, hne⟩ := h
  by_contra hT
  have : sameLengths kwargs = true := by
    cases hs : sameLengths kwargs
    · exact absurd hs hT
    · rfl
  exact hne (sameLengths_true_iff kwargs this p hp q hq)

end TaskRecordBuilder

section WorkerCount

/-- `base.py BaseParallelExecutor._get_worker_count` (lines 60-67): when the
caller passes no worker count, default to `max(cpu_count - 1, 1)`.  Used by
the executors built on `base.py` (`threaded.py` and `multiprocess.py`). -/
def getWorkerCount (nWorkers : Option Int) (cpuCount : Int) : Int :=
  match nWorkers with
  | none => max (cpuCount - 1) 1
  | some n => n

/-- `executors/base.py BaseParallelExecutor.__init__` (lines 21-35):
`self.n_workers = psutil.cpu_count() if n_workers is None else n_workers` —
the default is the plain CPU count, with no decrement and no floor.  Used by
the executor in `executors/threader.py`. -/
def workerCountExecBase (nWorkers : Option Int) (cpuCount : Int) : Int :=
  match nWorkers with
  | none => cpuCount
  | some n => n

end WorkerCount

section Batching

variable {α : Type}

/-- Sizes computed by the loop in `utils.py create_batches` (lines 4-52):
`size = batch_size + (1 if i < remainder else 0)` for `i in range(n_batches)`. -/
def batchSizes (nb batchSize remainder : Nat) : List Nat :=
  (List.range nb).map (fun i => batchSize + if i < remainder then 1 else 0)

/-- The slicing loop of `utils.py create_batches`: for each size, if it is
positive, cut `data[start : start + size]` and advance `start`. -/
def takeBatches : List α → List Nat → List (List α)
  | _, [] => []
  | l, s :: rest =>
    if 0 < s then l.take s :: takeBatches (l.drop s) rest
    else takeBatches l rest

/-- `utils.py create_batches` (lines 4-52): split `data` into
`min(n_batches, len(data))` roughly equal contiguous batches; empty data
yields no batches; a non-positive `n_batches` raises `ValueError`. -/
def createBatches (data : List α) (nBatches : Int) : Except String (List (List α)) :=
  if data.isEmpty then .ok []
  else if nBatches ≤ 0 then .error "n_batches must be positive"
  else
    let nb := min nBatches.toNat data.length
    let batchSize := data.length / nb
    let remainder := data.length % nb
    .ok (takeBatches data (batchSizes nb batchSize remainder))

/-- `utils.py flatten_results` (lines 55-86): concatenate the batches,
skipping `None` entries. -/
def flattenResults (batchResults : List (Option (List α))) : List α :=
  batchResults.foldl
    (fun flat b =>
      match b with
      | some batch => flat ++ batch
      | none => flat)
    []

theorem flattenResults_foldl (batchResults : List (Option (List α)))
    (acc : List α) :
    batchResults.foldl
      (fun flat b => match b with | some batch => flat ++ batch | none => flat)
      acc =
      acc ++ batchResults.foldl
        (fun flat b => match b with | some batch => flat ++ batch | none => flat)
        [] := by
  induction batchResults generalizing acc with
  | nil => simp
  | cons b rest ih =>
    cases b with
    | none => simpa using ih acc
    | some batch =>
      show rest.foldl _ (acc ++ batch) = acc ++ rest.foldl _ ([] ++ batch)
      rw [ih (acc ++ batch), ih ([] ++ batch)]
      simp

theorem flattenResults_map_some (batches : List (List α)) :
    flattenResults (batches.map some) = batches.join := by
  induction batches with
  | nil => rfl
  | cons b rest ih =>
    show List.foldl _ ([] ++ b) (rest.map some) = _
    rw [flattenResults_foldl]
    simpa [List.join] using congrArg (b ++ ·) ih

theorem join_takeBatches (l : List α) (sizes : List Nat) :
    (takeBatches l sizes).join = l.take sizes.sum := by
  induction sizes generalizing l with
  | nil => simp [takeBatches]
  | cons s rest ih =>
    by_cases hs : 0 < s
    · rw [takeBatches, if_pos hs]
      show l.take s ++ (takeBatches (l.drop s) rest).join = _
      rw [ih (l.drop s), List.sum_cons, List.take_add]
    · have hz : s = 0 := Nat.eq_zero_of_not_pos hs
      rw [takeBatches, if_neg hs, ih l, hz, List.sum_cons, Nat.zero_add]

theorem length_takeBatches (l : List α) (sizes : List Nat)
    (hpos : ∀ s ∈ sizes, 0 < s) :
    (takeBatches l sizes).length = sizes.length := by
  induction sizes generalizing l with
  | nil => rfl
  | cons s rest ih =>
    rw [takeBatches, if_pos (hpos s (List.mem_cons_self _ _))]
    simpa using ih (l.drop s) (fun t ht => hpos t (List.mem_cons_of_mem _ ht))

theorem length_mem_takeBatches (l : List α) (sizes : List Nat)
    (hpos : ∀ s ∈ sizes, 0 < s) (hsum : sizes.sum ≤ l.length) :
    ∀ b ∈ takeBatches l sizes, ∃ s ∈ sizes, b.length = s := by
  induction sizes generalizing l with
  | nil => intro b hb; cases hb
  | cons s rest ih =>
    intro b hb
    rw [takeBatches, if_pos (hpos s (List.mem_cons_self _ _))] at hb
    have hsle : s ≤ l.length := by
      have := List.sum_cons (a := s) (l := rest) ▸ hsum
      omega
    rcases List.mem_cons.mp hb with hb | hb
    · refine ⟨s, List.mem_cons_self _ _, ?_⟩
      rw [hb, List.length_take]
      omega
    · have hsum' : rest.sum ≤ (l.drop s).length := by
        rw [List.length_drop]
        have := List.sum_cons (a := s) (l := rest) ▸ hsum
        omega
      obtain ⟨t, ht, hbt⟩ := ih (l.drop s)
        (fun t ht => hpos t (List.mem_cons_of_mem _ ht)) hsum' b hb
      exact ⟨t, List.mem_cons_of_mem _ ht, hbt⟩

theorem sum_batchSizes (nb batchSize remainder : Nat) :
    (batchSizes nb batchSize remainder).sum =
      nb * batchSize + min remainder nb := by
  induction nb with
  | zero => simp [batchSizes]
  | succ n ih =>
    rw [batchSizes, List.range_succ, List.map_append, List.sum_append]
    rw [batchSizes] at ih
    rw [ih]
    by_cases hn : n < remainder
    · have h1 : min remainder n = n := by omega
      have h2 : min remainder (n + 1) = n + 1 := by omega
      simp [hn, h1, h2, Nat.succ_mul]
      omega
    · have h1 : min remainder n = min remainder (n + 1) := by omega
      simp [hn, ← h1, Nat.succ_mul]
      omega

theorem mem_batchSizes (nb batchSize remainder : Nat) :
    ∀ s ∈ batchSizes nb batchSize remainder,
      batchSize ≤ s ∧ s ≤ batchSize + 1 := by
  intro s hs
  obtain ⟨i, _, hi⟩ := List.mem_map.mp hs
  by_cases h : i < remainder <;> simp [h] at hi <;> omega

end Batching

section QueueCountLemmas

theorem stopMarkerCount_replicate {A : Type} (n : Nat) :
    stopMarkerCount (List.replicate n (none : Option (Nat × A))) = n := by
  induction n with
  | zero => rfl
  | succ k ih => simpa [stopMarkerCount, List.replicate_succ, List.countP_cons]
      using ih

theorem stopMarkerCount_map_some {A : Type} (l : List (Nat × A)) :
    stopMarkerCount (l.map some) = 0 := by
  refine List.countP_eq_zero.mpr ?_
  intro x hx
  obtain ⟨p, -, rfl⟩ := List.mem_map.mp hx
  simp

end QueueCountLemmas

/-! ## Claim theorems -/

/-- C4: in every thread-mode `execute` call the tasks are pushed to the task
queue in index order followed by exactly `n_workers` stop markers, and the
cancellation drain path (`_drain_task_queue`) again pushes exactly
`n_workers` stop markers — the number of stop markers always equals the
number of worker threads. -/
theorem stop_marker_count_equals_worker_count {A : Type} (tasks : List A)
    (nWorkers : Nat) (q : List (Option (Nat × A))) :
    stopMarkerCount (dispatchQueue tasks nWorkers) = nWorkers ∧
    (dispatchQueue tasks nWorkers).take tasks.length = tasks.enum.map some ∧
    tasks.enum.map Prod.fst = List.range tasks.length ∧
    stopMarkerCount (drainTaskQueue q nWorkers) = nWorkers := by
  refine ⟨?_, ?_, List.enum_map_fst tasks, ?_⟩
  · show stopMarkerCount (tasks.enum.map some ++ List.replicate nWorkers none) = _
    rw [stopMarkerCount, List.countP_append]
    rw [show List.countP (fun it => it.isNone) (tasks.enum.map some) =
        stopMarkerCount (tasks.enum.map some) from rfl, stopMarkerCount_map_some]
    rw [show List.countP (fun it => it.isNone)
          (List.replicate nWorkers (none : Option (Nat × A))) =
        stopMarkerCount (List.replicate nWorkers none) from rfl,
      stopMarkerCount_replicate, Nat.zero_add]
  · have hlen : tasks.length = (tasks.enum.map some).length := by simp
    rw [dispatchQueue, hlen, List.take_left]
  · exact stopMarkerCount_replicate nWorkers

theorem stop_marker_count_equals_worker_count_witness :
    stopMarkerCount (dispatchQueue ([10, 20] : List Nat) 3) = 3 ∧
    (dispatchQueue ([10, 20] : List Nat) 3).take 2 =
      ([10, 20] : List Nat).enum.map some ∧
    ([10, 20] : List Nat).enum.map Prod.fst = List.range 2 ∧
    stopMarkerCount (drainTaskQueue ([] : List (Option (Nat × Nat))) 3) = 3 :=
  stop_marker_count_equals_worker_count [10, 20] 3 []

/-- C7 counterexample: the claim says both coordinators default the worker
count to CPU count minus one with a minimum of one, but the
`executors/base.py` coordinator (`threader.py`'s executor) defaults to the
plain CPU count: at `cpu_count = 4` it picks 4 workers, not `max(4-1, 1) = 3`. -/
theorem worker_count_default_not_minus_one :
    workerCountExecBase none 4 ≠ max (4 - 1) 1 := by decide

/-- C7 (amended): the `base.py` hierarchy (used by `threaded.py` and
`multiprocess.py`) defaults the worker count to `max(cpu_count - 1, 1)`;
the `executors/base.py` hierarchy (used by `threader.py`) defaults to the
plain CPU count, with no decrement and no floor. -/
theorem worker_count_defaults (cpuCount : Int) :
    getWorkerCount none cpuCount = max (cpuCount - 1) 1 ∧
    workerCountExecBase none cpuCount = cpuCount :=
  ⟨rfl, rfl⟩

theorem worker_count_defaults_witness :
    getWorkerCount none 4 = max (4 - 1) 1 ∧ workerCountExecBase none 4 = 4 :=
  worker_count_defaults 4

/-- Concrete task function for the failure scenario: the task with argument
2 raises `InvalidArgument`, every other task returns its square. -/
def cexF : Nat → Except String Nat := fun x =>
  if x = 2 then .error "InvalidArgument" else .ok (x * x)

/-- Concrete task arguments for the failure scenario. -/
def cexTasks : List Nat := [0, 1, 2, 3, 4]

/-- C3 counterexample: with `threaded.py`'s `ThreadWorker.run` (which
re-raises a task exception), one worker, and the five tasks of `cexTasks`
where task 2 fails, the worker dies without pushing its `"DONE"` sentinel:
the collection loop, which exits only after one `"DONE"`, can never finish
(the pool hangs), and the sibling tasks 3 and 4 are never executed. -/
theorem thread_worker_exception_aborts_pool :
    ¬ collectionCanFinish (threadWorkerRun cexF false (dispatchQueue cexTasks 1)) 1 ∧
    hasValueFor 3 (threadWorkerRun cexF false (dispatchQueue cexTasks 1)) = false ∧
    hasValueFor 4 (threadWorkerRun cexF false (dispatchQueue cexTasks 1)) = false ∧
    hasValueFor 0 (threadWorkerRun cexF false (dispatchQueue cexTasks 1)) = true := by
  decide

/-- C3 (amended): in the `threader.py` worker variant (`_worker`), which
catches a task exception and pushes `(idx, None)`, a failing task is
isolated to its own slot: every succeeding task's slot holds its correct
result, a failing task's slot is left absent (`None`), sibling tasks keep
running, and the worker still pushes its `"DONE"` so the collection loop can
complete.  In the `threaded.py` `ThreadWorker` variant the exception
propagates, the worker dies without its `"DONE"`, and the pool hangs. -/
theorem worker_failure_isolated {A E B : Type} (f : A → Except E B)
    (tasks : List A) :
    collectionCanFinish (workerLoop f false (dispatchQueue tasks 1)) 1 ∧
    (collectResultsThreader (workerLoop f false (dispatchQueue tasks 1))
        (List.replicate tasks.length none)).length = tasks.length ∧
    ∀ (i : Nat) (a : A), tasks[i]? = some a →
      (collectResultsThreader (workerLoop f false (dispatchQueue tasks 1))
          (List.replicate tasks.length none))[i]? = some (outcomeOf f a) := by
  refine ⟨?_, ?_, ?_⟩
  · rw [dispatchQueue_one_worker]
    exact Nat.le_of_eq (doneCount_workerLoop f tasks.enum).symm
  · exact (length_queueFold (id : Option B → Option B)
      (workerLoop f false (dispatchQueue tasks 1))
      (List.replicate tasks.length none)).trans (by simp)
  · intro i a ha
    have hi : i < tasks.length := by
      by_contra hge
      rw [List.getElem?_eq_none (by omega)] at ha
      cases ha
    refine queueFold_getElem?_filled _ _ _ i (outcomeOf f a) ?_ ?_ (by simpa using hi)
    · obtain ⟨v, hv⟩ := (hasValueFor_iff i _).mp (workerLoop_hasValueFor f tasks i hi)
      exact ⟨v, hv⟩
    · intro v hv
      obtain ⟨a', ha', hva'⟩ := mem_workerLoop_value f tasks i v hv
      rw [ha] at ha'
      have haa : a' = a := by
        injection ha' with h
        exact h.symm
      simp [hva', haa]

theorem worker_failure_isolated_witness :
    collectionCanFinish (workerLoop cexF false (dispatchQueue cexTasks 1)) 1 ∧
    (collectResultsThreader (workerLoop cexF false (dispatchQueue cexTasks 1))
        (List.replicate cexTasks.length none)).length = cexTasks.length ∧
    cexTasks[2]? = some 2 ∧
    (collectResultsThreader (workerLoop cexF false (dispatchQueue cexTasks 1))
        (List.replicate cexTasks.length none))[2]? = some (outcomeOf cexF 2) ∧
    cexTasks[3]? = some 3 ∧
    (collectResultsThreader (workerLoop cexF false (dispatchQueue cexTasks 1))
        (List.replicate cexTasks.length none))[3]? = some (outcomeOf cexF 3) :=
  ⟨(worker_failure_isolated cexF cexTasks).1,
   (worker_failure_isolated cexF cexTasks).2.1,
   by decide,
   (worker_failure_isolated cexF cexTasks).2.2 2 2 (by decide),
   by decide,
   (worker_failure_isolated cexF cexTasks).2.2 3 3 (by decide)⟩

/-- C5: if the argument sequences differ in length, `_format_args` raises
`LengthMismatch`, and since it runs in the executor constructor the whole
pipeline fails before any task is dispatched: no dispatch queue is ever
built. -/
theorem length_mismatch_before_dispatch {α : Type}
    (kwargs : List (String × List α)) (nWorkers : Nat)
    (h : ∃ p ∈ kwargs, ∃ q ∈ kwargs, p.2.length ≠ q.2.length) :
    formatArgs kwargs = .error "LengthMismatch" ∧
    threadedDispatchFromKwargs kwargs nWorkers = .error "LengthMismatch" := by
  have hne : kwargs ≠ [] := by
    rintro rfl
    obtain ⟨p, hp, -⟩ := h
    cases hp
  have hsl : sameLengths kwargs = false := sameLengths_false_of_mismatch kwargs h
  have hfa : formatArgs kwargs = .error "LengthMismatch" := by
    match kwargs with
    | [] => exact absurd rfl hne
    | (k, v) :: rest => simp [formatArgs, hsl]
  refine ⟨hfa, ?_⟩
  show (formatArgs kwargs).map (fun tasks => dispatchQueue tasks nWorkers) = _
  rw [hfa]
  rfl

theorem length_mismatch_before_dispatch_witness :
    (∃ p ∈ ([("x", [1, 2]), ("y", [9])] : List (String × List Nat)),
      ∃ q ∈ ([("x", [1, 2]), ("y", [9])] : List (String × List Nat)),
        p.2.length ≠ q.2.length) ∧
    formatArgs ([("x", [1, 2]), ("y", [9])] : List (String × List Nat)) =
      .error "LengthMismatch" ∧
    threadedDispatchFromKwargs ([("x", [1, 2]), ("y", [9])] : List (String × List Nat)) 4 =
      .error "LengthMismatch" :=
  ⟨by decide, length_mismatch_before_dispatch [("x", [1, 2]), ("y", [9])] 4 (by decide)⟩

/-- C6: for a non-empty mapping whose sequences all have length `n`,
`_format_args` produces exactly `n` argument records, record `i` pairing
every parameter name with the `i`-th element of that name's sequence (which
exists); for the empty mapping it produces zero records. -/
theorem format_args_builds_records {α : Type} (kwargs : List (String × List α))
    (n : Nat) (hne : kwargs ≠ []) (hlen : ∀ p ∈ kwargs, p.2.length = n) :
    (∃ rows, formatArgs kwargs = .ok rows ∧ rows.length = n ∧
      (∀ i, i < n → rows[i]? = some (kwargs.map (fun p => (p.1, p.2[i]?)))) ∧
      (∀ i, i < n → ∀ p ∈ kwargs, (p.2[i]?).isSome = true)) ∧
    formatArgs ([] : List (String × List α)) = .ok [] := by
  refine ⟨?_, rfl⟩
  match kwargs with
  | [] => exact absurd rfl hne
  | (k, v) :: rest =>
    have hv : v.length = n := hlen (k, v) (List.mem_cons_self _ _)
    have hsl : sameLengths ((k, v) :: rest) = true := by
      simp only [sameLengths, List.all_eq_true]
      intro p hp
      rw [hlen p (List.mem_cons_of_mem _ hp), hv]
      simp
    refine ⟨(List.range v.length).map
        (fun i => ((k, v) :: rest).map (fun p => (p.1, p.2[i]?))), ?_, ?_, ?_, ?_⟩
    · simp only [formatArgs]
      rw [if_pos hsl]
    · simp [hv]
    · intro i hi
      rw [List.getElem?_map, List.getElem?_range (by omega : i < v.length)]
      rfl
    · intro i hi p hp
      have := hlen p hp
      rw [List.getElem?_eq_getElem (by omega)]
      rfl

/-- `threaded.py`, interrupted path: consuming the processed messages and
then draining the pending ones has the same buffer effect as consuming
their concatenation. -/
theorem drainResultsTo_collectResults {B : Type} (g : Option (B → B))
    (processed pending : List (Msg B)) (buf : List (Option B)) :
    drainResultsTo g pending (collectResults g processed buf) =
      collectResults g (processed ++ pending) buf := by
  simp [drainResultsTo, collectResults, queueFold, List.foldl_append]

/-- C1: at any observation point the result buffer of either collector has
length equal to the task count, and every non-absent entry at index `i` is
the (possibly transformed) output of the task originally submitted at index
`i` — never another task's output.  `msgs` ranges over every sequence of
messages the threaded collection loop may have consumed so far, and `order`
over every sequence of handle retrievals of the multiprocess collector, so
positional order is preserved regardless of worker finish order. -/
theorem results_buffer_positional_integrity {A B : Type} (g : Option (B → B))
    (f : A → B) (tasks : List A) (msgs : List (Msg B)) (order : List Nat)
    (hs : MsgsSound f tasks msgs) :
    (collectResults g msgs (List.replicate tasks.length none)).length = tasks.length ∧
    (∀ (i : Nat) (w : B),
        (collectResults g msgs (List.replicate tasks.length none))[i]? = some (some w) →
        expectedSlot g f tasks i = some w) ∧
    (mpCollectResults g f tasks order (List.replicate tasks.length none)).length = tasks.length ∧
    (∀ (i : Nat) (w : B),
        (mpCollectResults g f tasks order (List.replicate tasks.length none))[i]? = some (some w) →
        expectedSlot g f tasks i = some w) := by
  refine ⟨?_, ?_, ?_, ?_⟩
  · exact (length_collectResults g msgs _).trans (by simp)
  · intro i w h
    exact collectResults_sound g f tasks msgs hs i w h
  · exact (length_mpCollectResults g f tasks order _).trans (by simp)
  · intro i w h
    exact mpCollectResults_sound g f tasks order i w h

theorem results_buffer_positional_integrity_witness :
    MsgsSound (fun x => x * x) ([3, 4] : List Nat) [Msg.value 1 16, Msg.done] ∧
    (collectResults none [Msg.value 1 16, Msg.done]
        (List.replicate ([3, 4] : List Nat).length none)).length =
      ([3, 4] : List Nat).length :=
  ⟨by decide,
   (results_buffer_positional_integrity none (fun x => x * x) [3, 4]
      [Msg.value 1 16, Msg.done] [0] (by decide)).1⟩

/-- C2: if cancellation fires during collection after the loop has consumed
`processed` while `pending` completed results still sit on the queue, the
interrupted `execute` drains every already-completed-but-uncollected result
into the buffer and returns it with every completed task's value at its
correct index, `wasCancelled = true`, absent (`None`) entries for tasks
never completed, the stop machinery armed, and all worker handles released
(threads joined; in process mode the handle list cleared and the pool
terminated). -/
theorem cancellation_preserves_completed_results {A B : Type}
    (g : Option (B → B)) (f : A → B) (tasks : List A) (nWorkers : Nat)
    (remainingQueue : List (Option (Nat × A)))
    (processed pending : List (Msg B)) (collected ready : List Nat)
    (hs : MsgsSound f tasks (processed ++ pending)) :
    (executeInterrupted g tasks nWorkers remainingQueue processed pending).interrupt = true ∧
    (executeInterrupted g tasks nWorkers remainingQueue processed pending).threadsJoined = true ∧
    (executeInterrupted g tasks nWorkers remainingQueue processed pending).stopEvent = true ∧
    stopMarkerCount
      (executeInterrupted g tasks nWorkers remainingQueue processed pending).taskQueue = nWorkers ∧
    (executeInterrupted g tasks nWorkers remainingQueue processed pending).results.length =
      tasks.length ∧
    (∀ i : Nat, hasValueFor i (processed ++ pending) = true →
      (executeInterrupted g tasks nWorkers remainingQueue
          processed pending).results[i]? = some (expectedSlot g f tasks i)) ∧
    (∀ i : Nat, i < tasks.length → hasValueFor i (processed ++ pending) = false →
      (executeInterrupted g tasks nWorkers remainingQueue
          processed pending).results[i]? = some none) ∧
    (mpExecuteInterrupted g f tasks collected ready).interrupt = true ∧
    (mpExecuteInterrupted g f tasks collected ready).poolTerminated = true ∧
    (mpExecuteInterrupted g f tasks collected ready).handlesCleared = true ∧
    (mpExecuteInterrupted g f tasks collected ready).results.length = tasks.length ∧
    (∀ i ∈ collected ++ ready, i < tasks.length →
      (mpExecuteInterrupted g f tasks collected ready).results[i]? =
        some (expectedSlot g f tasks i)) ∧
    (∀ i : Nat, i < tasks.length → i ∉ collected ++ ready →
      (mpExecuteInterrupted g f tasks collected ready).results[i]? = some none) := by
  have hres : (executeInterrupted g tasks nWorkers remainingQueue
      processed pending).results =
      collectResults g (processed ++ pending) (List.replicate tasks.length none) :=
    drainResultsTo_collectResults g processed pending _
  refine ⟨rfl, rfl, rfl, stopMarkerCount_replicate nWorkers, ?_, ?_, ?_, rfl, rfl, rfl,
    ?_, ?_, ?_⟩
  · rw [hres]
    exact (length_collectResults g _ _).trans (by simp)
  · intro i hv
    rw [hres]
    exact collectResults_filled g f tasks (processed ++ pending) hs i hv _ (by simp)
  · intro i hi hv
    rw [hres, collectResults_untouched g (processed ++ pending) _ i hv,
      List.getElem?_replicate, if_pos hi]
  · exact (length_mpCollectResults g f tasks _ _).trans (by simp)
  · intro i hmem hi
    exact mpCollectResults_filled g f tasks (collected ++ ready) _ i hmem hi (by simp)
  · intro i hi hmem
    rw [show (mpExecuteInterrupted g f tasks collected ready).results =
        mpCollectResults g f tasks (collected ++ ready)
          (List.replicate tasks.length none) from rfl,
      mpCollectResults_untouched g f tasks _ _ i hmem,
      List.getElem?_replicate, if_pos hi]

theorem cancellation_preserves_completed_results_witness :
    MsgsSound (fun x => x + 1) ([5, 6, 7] : List Nat)
      ([Msg.value 0 6] ++ [Msg.value 2 8]) ∧
    (executeInterrupted none ([5, 6, 7] : List Nat) 2 []
        [Msg.value 0 6] [Msg.value 2 8]).interrupt = true :=
  ⟨by decide,
   (cancellation_preserves_completed_results none (fun x => x + 1) [5, 6, 7] 2 []
      [Msg.value 0 6] [Msg.value 2 8] [0] [2] (by decide)).1⟩

/-- C8: for the concrete tasks `f(0)..f(4)` with `f(x) = x²` and 5 workers,
any complete run of the threaded `execute` returns
`([0, 1, 4, 9, 16], wasCancelled = false)`; with the result transform
`g(r) = r + 1` every slot holds the transformed value, giving
`[1, 2, 5, 10, 17]`. -/
theorem concrete_squares_scenario (msgs : List (Msg Nat))
    (hs : MsgsSound (fun x => x * x) ([0, 1, 2, 3, 4] : List Nat) msgs)
    (hc : ∀ i < 5, hasValueFor i msgs = true) :
    (executeNormal none ([0, 1, 2, 3, 4] : List Nat) 5 msgs).results =
      [some 0, some 1, some 4, some 9, some 16] ∧
    (executeNormal none ([0, 1, 2, 3, 4] : List Nat) 5 msgs).interrupt = false ∧
    (executeNormal (some (fun r => r + 1)) ([0, 1, 2, 3, 4] : List Nat) 5 msgs).results =
      [some 1, some 2, some 5, some 10, some 17] ∧
    (executeNormal (some (fun r => r + 1)) ([0, 1, 2, 3, 4] : List Nat) 5 msgs).interrupt =
      false := by
  have hc' : ∀ i < ([0, 1, 2, 3, 4] : List Nat).length, hasValueFor i msgs = true := hc
  refine ⟨?_, rfl, ?_, rfl⟩
  · show collectResults none msgs _ = _
    rw [collectResults_canonical none (fun x => x * x) [0, 1, 2, 3, 4] msgs hs hc']
    decide
  · show collectResults (some (fun r => r + 1)) msgs _ = _
    rw [collectResults_canonical (some (fun r => r + 1)) (fun x => x * x)
      [0, 1, 2, 3, 4] msgs hs hc']
    decide

theorem concrete_squares_scenario_witness :
    MsgsSound (fun x => x * x) ([0, 1, 2, 3, 4] : List Nat)
      [Msg.value 2 4, Msg.value 0 0, Msg.value 4 16, Msg.value 1 1,
        Msg.value 3 9, Msg.done, Msg.done, Msg.done, Msg.done, Msg.done] ∧
    (∀ i < 5, hasValueFor i
      [Msg.value 2 4, Msg.value 0 0, Msg.value 4 16, Msg.value 1 1,
        Msg.value 3 9, Msg.done, Msg.done, Msg.done, Msg.done, Msg.done] = true) ∧
    (executeNormal none ([0, 1, 2, 3, 4] : List Nat) 5
        [Msg.value 2 4, Msg.value 0 0, Msg.value 4 16, Msg.value 1 1,
          Msg.value 3 9, Msg.done, Msg.done, Msg.done, Msg.done, Msg.done]).results =
      [some 0, some 1, some 4, some 9, some 16] :=
  ⟨by decide, by decide,
   (concrete_squares_scenario
      [Msg.value 2 4, Msg.value 0 0, Msg.value 4 16, Msg.value 1 1,
        Msg.value 3 9, Msg.done, Msg.done, Msg.done, Msg.done, Msg.done]
      (by decide) (by decide)).1⟩

/-- C9: for a deterministic task function and the same tasks, every complete
run of the threaded `execute` and every complete run of the multiprocess
`execute` return identical result lists (and the same `wasCancelled`). -/
theorem thread_process_equivalence {A B : Type} (g : Option (B → B)) (f : A → B)
    (tasks : List A) (nWorkers : Nat) (msgs : List (Msg B)) (order : List Nat)
    (hs : MsgsSound f tasks msgs)
    (hc : ∀ i < tasks.length, hasValueFor i msgs = true)
    (ho : ∀ i < tasks.length, i ∈ order) :
    (executeNormal g tasks nWorkers msgs).results =
      (mpExecuteNormal g f tasks order).results ∧
    (executeNormal g tasks nWorkers msgs).interrupt =
      (mpExecuteNormal g f tasks order).interrupt := by
  refine ⟨?_, rfl⟩
  show collectResults g msgs _ = mpCollectResults g f tasks order _
  rw [collectResults_canonical g f tasks msgs hs hc,
    mpCollectResults_canonical g f tasks order ho]

theorem thread_process_equivalence_witness :
    MsgsSound (fun x => x * x) ([2, 3] : List Nat)
      [Msg.value 1 9, Msg.value 0 4, Msg.done] ∧
    (∀ i < ([2, 3] : List Nat).length, hasValueFor i
      [Msg.value 1 9, Msg.value 0 4, Msg.done] = true) ∧
    (∀ i < ([2, 3] : List Nat).length, i ∈ ([1, 0] : List Nat)) ∧
    (executeNormal none ([2, 3] : List Nat) 1
        [Msg.value 1 9, Msg.value 0 4, Msg.done]).results =
      (mpExecuteNormal none (fun x => x * x) ([2, 3] : List Nat) [1, 0]).results :=
  ⟨by decide, by decide, by decide,
   (thread_process_equivalence none (fun x => x * x) [2, 3] 1
      [Msg.value 1 9, Msg.value 0 4, Msg.done] [1, 0]
      (by decide) (by decide) (by decide)).1⟩

/-- C10: for every list and every `n_batches ≥ 1`, `create_batches` succeeds
and partitions the list, in order, into `min(n_batches, len(data))`
contiguous non-empty batches whose sizes differ by at most one, and
`flatten_results` restores the original list. -/
theorem create_flatten_roundtrip {α : Type} (data : List α) (n : Int)
    (h : 1 ≤ n) :
    ∃ bs, createBatches data n = .ok bs ∧
      flattenResults (bs.map some) = data ∧
      bs.length = min n.toNat data.length ∧
      (∀ b ∈ bs, b ≠ []) ∧
      (∀ b₁ ∈ bs, ∀ b₂ ∈ bs, b₁.length ≤ b₂.length + 1) := by
  rcases data with - | ⟨d, rest⟩
  · refine ⟨[], by simp [createBatches], rfl, ?_, by simp, by simp⟩
    simp
  · set data := d :: rest with hdata
    have hlen : 0 < data.length := by simp [hdata]
    have hn0 : ¬ n ≤ 0 := by omega
    have hnt : 1 ≤ n.toNat := by omega
    set nb := min n.toNat data.length with hnb
    have hnbpos : 0 < nb := by
      rw [hnb]
      exact Nat.lt_min.mpr ⟨hnt, hlen⟩
    have hnble : nb ≤ data.length := Nat.min_le_right _ _
    set batchSize := data.length / nb with hbs
    set remainder := data.length % nb with hrem
    have hbs1 : 1 ≤ batchSize := (Nat.one_le_div_iff hnbpos).mpr hnble
    have hremlt : remainder < nb := Nat.mod_lt _ hnbpos
    have hpos : ∀ s ∈ batchSizes nb batchSize remainder, 0 < s := by
      intro s hsm
      have := (mem_batchSizes nb batchSize remainder s hsm).1
      omega
    have hsum : (batchSizes nb batchSize remainder).sum = data.length := by
      rw [sum_batchSizes]
      have hmin : min remainder nb = remainder := by omega
      rw [hmin, hbs, hrem]
      exact Nat.div_add_mod data.length nb
    have hok : createBatches data n =
        .ok (takeBatches data (batchSizes nb batchSize remainder)) := by
      simp only [createBatches, hdata]
      rw [if_neg (by simp), if_neg hn0]
    refine ⟨takeBatches data (batchSizes nb batchSize remainder), hok, ?_, ?_, ?_, ?_⟩
    · rw [flattenResults_map_some, join_takeBatches, hsum, List.take_length]
    · rw [length_takeBatches data _ hpos]
      simp [batchSizes, hnb]
    · intro b hb
      obtain ⟨s, hsm, hbl⟩ := length_mem_takeBatches data _ hpos (le_of_eq hsum) b hb
      have := hpos s hsm
      intro hnil
      rw [hnil] at hbl
      simp at hbl
      omega
    · intro b₁ hb₁ b₂ hb₂
      obtain ⟨s₁, hs₁, hl₁⟩ := length_mem_takeBatches data _ hpos (le_of_eq hsum) b₁ hb₁
      obtain ⟨s₂, hs₂, hl₂⟩ := length_mem_takeBatches data _ hpos (le_of_eq hsum) b₂ hb₂
      have h₁ := mem_batchSizes nb batchSize remainder s₁ hs₁
      have h₂ := mem_batchSizes nb batchSize remainder s₂ hs₂
      omega

theorem create_flatten_roundtrip_witness :
    (1 : Int) ≤ 2 ∧
    ∃ bs, createBatches ([1, 2, 3, 4, 5] : List Nat) 2 = .ok bs ∧
      flattenResults (bs.map some) = [1, 2, 3, 4, 5] ∧
      bs.length = min (2 : Int).toNat ([1, 2, 3, 4, 5] : List Nat).length ∧
      (∀ b ∈ bs, b ≠ []) ∧
      (∀ b₁ ∈ bs, ∀ b₂ ∈ bs, b₁.length ≤ b₂.length + 1) :=
  ⟨by decide, create_flatten_roundtrip [1, 2, 3, 4, 5] 2 (by decide)⟩

theorem format_args_builds_records_witness :
    (∃ rows, formatArgs ([("x", [1, 2]), ("y", [8, 9])] : List (String × List Nat)) =
        .ok rows ∧ rows.length = 2 ∧
      (∀ i, i < 2 → rows[i]? =
        some (([("x", [1, 2]), ("y", [8, 9])] : List (String × List Nat)).map
          (fun p => (p.1, p.2[i]?)))) ∧
      (∀ i, i < 2 → ∀ p ∈ ([("x", [1, 2]), ("y", [8, 9])] : List (String × List Nat)),
        (p.2[i]?).isSome = true)) ∧
    formatArgs ([] : List (String × List Nat)) = .ok [] :=
  format_args_builds_records [("x", [1, 2]), ("y", [8, 9])] 2 (by decide)
    (by decide)

end PyParallelizer
